import Mathlib

/-!
# Verification of the dinkytime deterministic generation core

Shallow embedding of the seeded pseudo-random generator (`src/utils/random.ts`),
the keyboard-to-behavior mapper (`src/core/KeyboardMapper.ts`), the audio engine's
polyphony-capped note trigger and the four-layer loop manager
(`src/core/AudioEngine.ts`), and the visual element / stroke lifecycle manager
(`VisualEngine`), together with proofs of the spec's claims about them.

Conventions of the embedding:
* JS numbers are modelled as exact rationals (`ℚ`); the integer LCG state is an
  `ℤ`.  For integer seeds in `[0, 2^32)` every arithmetic step performed by the
  source stays below `2^53`, so JS float arithmetic is exact there and the
  rational model coincides with the source.
* JS `%` is truncating modulus, written `jsMod` below.
* Wall-clock fields of the source (`Date.now()` birth/start times) are outside
  the embedding: no claim refers to them.
* `Math.sqrt(d2) < t` is embedded as `0 < t ∧ d2 < t^2`, which is equivalent
  since `Math.sqrt` is nonnegative and squaring is monotone on nonnegatives.
-/

/-! ## SeededRandom (`src/utils/random.ts`)

`class SeededRandom` holds one integer register `seed` updated by
`seed = (seed * 1664525 + 1013904223) % 2**32`.
-/

/-- JS truncating modulus (`%`) for a positive modulus `n`. -/
def jsMod (x n : ℤ) : ℤ :=
  if 0 ≤ x then x % n else -((-x) % n)

/-- Source `2 ** 32`, the LCG modulus. -/
def M32 : ℤ := 4294967296

/-- The generator state: the `seed` field of `SeededRandom`. -/
abbrev SRState := ℤ

/-- Source `next()`: advance the LCG and return `seed / 2**32`. -/
def srNext (s : SRState) : ℚ × SRState :=
  let s' := jsMod (s * 1664525 + 1013904223) M32
  ((s' : ℚ) / (M32 : ℚ), s')

/-- Source `range(min, max)`: `min + next() * (max - min)`. -/
def srRange (a b : ℚ) (s : SRState) : ℚ × SRState :=
  let p := srNext s
  (a + p.1 * (b - a), p.2)

/-- Source `int(min, max)`: `Math.floor(range(min, max + 1))`. -/
def srInt (a b : ℤ) (s : SRState) : ℤ × SRState :=
  let p := srRange (a : ℚ) ((b : ℚ) + 1) s
  (⌊p.1⌋, p.2)

/-- Source `choice(array)`: `array[int(0, array.length - 1)]`.  The default `d` is
returned for an out-of-range index (JS would yield `undefined`); for a nonempty
list and a nonnegative state the index is always in range. -/
def srChoice {α : Type} (l : List α) (d : α) (s : SRState) : α × SRState :=
  let p := srInt 0 ((l.length : ℤ) - 1) s
  (l.getD p.1.toNat d, p.2)

/-- Swap two positions of a list (the destructuring swap in `shuffle`). -/
def swapIdx {α : Type} (l : List α) (i j : ℕ) : List α :=
  match l.get? i, l.get? j with
  | some a, some b => (l.set i b).set j a
  | _, _ => l

/-- The Fisher–Yates loop of `shuffle`, running `i` from `n-1` down to `1`. -/
def srShuffleAux {α : Type} : ℕ → List α → SRState → List α × SRState
  | 0, l, s => (l, s)
  | n + 1, l, s =>
    let p := srInt 0 ((n : ℤ) + 1) s
    srShuffleAux n (swapIdx l (n + 1) p.1.toNat) p.2

/-- Source `shuffle(array)`: copy, then Fisher–Yates. -/
def srShuffle {α : Type} (l : List α) (s : SRState) : List α × SRState :=
  srShuffleAux (l.length - 1) l s

/-- The cumulative-subtraction loop of `weightedChoice`: subtract weights from
the draw until it goes nonpositive; the last item is the fallback. -/
def wpick {α : Type} : List α → List ℚ → ℚ → α → α
  | [], _, _, d => d
  | [a], _, _, _ => a
  | a :: b :: rest, w :: ws, r, _ =>
    if r - w ≤ 0 then a else wpick (b :: rest) ws (r - w) a
  | a :: b :: rest, [], _, _ => (b :: rest).getLastD a

/-- Source `weightedChoice(items, weights)`: one `range(0, totalWeight)` draw, then the
cumulative-subtraction selection. -/
def srWeightedChoice {α : Type} (items : List α) (weights : List ℚ) (d : α)
    (s : SRState) : α × SRState :=
  let tot := weights.sum
  let p := srRange 0 tot s
  (wpick items weights p.1 d, p.2)

/-! ## Generator operation sequences (claim C1)

An abstract operation alphabet covering every public `SeededRandom` method,
with list-valued operations instantiated at rational items. -/

/-- One generator call. -/
inductive SROp : Type
  | next : SROp
  | range (a b : ℚ) : SROp
  | int (a b : ℤ) : SROp
  | choice (l : List ℚ) : SROp
  | shuffle (l : List ℚ) : SROp
  | weightedChoice (items : List ℚ) (weights : List ℚ) : SROp
deriving DecidableEq

/-- The observable output of one generator call. -/
inductive SROut : Type
  | num (q : ℚ) : SROut
  | listOut (l : List ℚ) : SROut
deriving DecidableEq

/-- Run one operation on the generator state. -/
def runSROp (op : SROp) (s : SRState) : SROut × SRState :=
  match op with
  | .next => let p := srNext s; (.num p.1, p.2)
  | .range a b => let p := srRange a b s; (.num p.1, p.2)
  | .int a b => let p := srInt a b s; (.num (p.1 : ℚ), p.2)
  | .choice l => let p := srChoice l 0 s; (.num p.1, p.2)
  | .shuffle l => let p := srShuffle l s; (.listOut p.1, p.2)
  | .weightedChoice items weights =>
    let p := srWeightedChoice items weights 0 s; (.num p.1, p.2)

/-- Run a sequence of operations, collecting every output. -/
def runSROps : List SROp → SRState → List SROut × SRState
  | [], s => ([], s)
  | op :: ops, s =>
    let p := runSROp op s
    let q := runSROps ops p.2
    (p.1 :: q.1, q.2)

/-! ## KeyboardMapper (`src/core/KeyboardMapper.ts`)

The mapper owns one `SeededRandom(seed)` and builds, at construction time, a
`Map` from every key of `'abcdefghijklmnopqrstuvwxyz0123456789'` to a
`KeyMapping`.  `FunctionType`s are modelled as the tag strings of the source;
the parameter derivation dispatches on substring containment exactly as the
source's `func.includes(...)` does.  Float weight literals of
`FUNCTION_DISTRIBUTION` are modelled by their decimal values; no claim below
depends on the low-order bits of a weight. -/

/-- Byte-wise prefix test on character lists. -/
def isPrefixChars : List Char → List Char → Bool
  | [], _ => true
  | _ :: _, [] => false
  | a :: as, b :: bs => a == b && isPrefixChars as bs

/-- Does `needle` occur contiguously in the list? (JS `String.includes`.) -/
def containsChars (needle : List Char) : List Char → Bool
  | [] => isPrefixChars needle []
  | c :: rest => isPrefixChars needle (c :: rest) || containsChars needle rest

/-- JS `hay.includes(needle)`. -/
def strIncludes (hay needle : String) : Bool := containsChars needle.data hay.data

/-- JS `key.toLowerCase()`, restricted to its ASCII action (the scope in which
the mapper's keys live). -/
def jsToLower (s : String) : String := ⟨s.data.map Char.toLower⟩

/-- Source `params` record produced by `generateParams`. -/
structure KeyParams where
  synthMode : Option String
  shapeType : Option String
  elementType : Option String
deriving DecidableEq

/-- One entry of the key→behavior table. -/
structure KeyMapping where
  key : String
  functions : List String
  params : KeyParams
deriving DecidableEq

/-- Source `FUNCTION_DISTRIBUTION` (`src/constants/distributions.ts`), in source
order (`Object.entries` iterates string keys in insertion order). -/
def FUNCTION_DISTRIBUTION : List (String × ℚ) :=
  [("synth-note", 0.10), ("percussion", 0.06), ("sound-effect", 0.12),
   ("beat-pattern", 0.06), ("shape-permanent", 0.03), ("symbol-spawn", 0.04),
   ("word-spawn", 0.05), ("animal-spawn", 0.10), ("number-spawn", 0.02),
   ("math-flash", 0.06), ("animation-bounce", 0.10), ("animation-move", 0.10),
   ("animation-explode", 0.13), ("background-color", 0.01),
   ("background-effect", 0.01), ("shader-glitch", 0.01)]

def functionTypes : List String := FUNCTION_DISTRIBUTION.map Prod.fst

def functionWeights : List ℚ := FUNCTION_DISTRIBUTION.map Prod.snd

/-- Source `'abcdefghijklmnopqrstuvwxyz0123456789'.split('')`. -/
def allKeys : List String :=
  "abcdefghijklmnopqrstuvwxyz0123456789".data.map (fun c => ⟨[c]⟩)

/-- The reserved QWEASD control subset. -/
def controlKeys : List String := ["q", "w", "e", "a", "s", "d"]

/-- Source `allKeys.filter(k => !controlKeys.includes(k))`. -/
def randomKeys : List String := allKeys.filter (fun k => !(controlKeys.contains k))

/-- The synth-mode name set drawn for synth/percussion tags. -/
def synthModes : List String := ["bass", "melody", "percussion", "chaos", "mixed"]

/-- The visual-only tag subset assigned to control keys. -/
def visualOptions : List String :=
  ["animation-bounce", "animation-move", "animation-explode",
   "shape-permanent", "symbol-spawn", "animal-spawn"]

/-- One iteration of the `generateParams` loop body for a single tag. -/
def genParamsStep (pr : KeyParams × SRState) (f : String) : KeyParams × SRState :=
  let ps := pr.1
  let s := pr.2
  let pr1 :=
    if strIncludes f "synth" || strIncludes f "percussion" then
      let p := srChoice synthModes "bass" s
      ({ ps with synthMode := some p.1 }, p.2)
    else (ps, s)
  let ps1 := pr1.1
  let ps2 := if strIncludes f "shape" || strIncludes f "animation" then
    { ps1 with shapeType := some "shape" } else ps1
  let ps3 := if strIncludes f "symbol" then { ps2 with elementType := some "symbol" } else ps2
  let ps4 := if strIncludes f "word" then { ps3 with elementType := some "word" } else ps3
  let ps5 := if strIncludes f "animal" then { ps4 with elementType := some "animal" } else ps4
  let ps6 := if strIncludes f "number" then { ps5 with elementType := some "number" } else ps5
  (ps6, pr1.2)

/-- Source `generateParams(functions)`: fold the per-tag body over the tag list. -/
def genParams (fs : List String) (s : SRState) : KeyParams × SRState :=
  fs.foldl genParamsStep (⟨none, none, none⟩, s)

/-- The `for (i < numFunctions)` loop: draw a weighted tag, push it unless the
key already carries it. -/
def drawFuncs : ℕ → List String → SRState → List String × SRState
  | 0, acc, s => (acc, s)
  | n + 1, acc, s =>
    let p := srWeightedChoice functionTypes functionWeights "shader-glitch" s
    let acc' := if acc.contains p.1 then acc else acc ++ [p.1]
    drawFuncs n acc' p.2

/-- Thread the generator state through a per-key entry builder. -/
def mapState {σ α β : Type} (f : σ → α → β × σ) : σ → List α → List β × σ
  | s, [] => ([], s)
  | s, a :: rest =>
    let p := f s a
    let q := mapState f p.2 rest
    (p.1 :: q.1, q.2)

/-- The table entry built for one non-control key. -/
def keyEntry (s : SRState) (k : String) : (String × KeyMapping) × SRState :=
  let pn := srInt 1 2 s
  let pf := drawFuncs pn.1.toNat [] pn.2
  let pp := genParams pf.1 pf.2
  ((k, ⟨k, pf.1, pp.1⟩), pp.2)

/-- The table entry built for one control key (one visual-only tag). -/
def controlEntry (s : SRState) (k : String) : (String × KeyMapping) × SRState :=
  let p := srChoice visualOptions "animation-bounce" s
  let pp := genParams [p.1] p.2
  ((k, ⟨k, [p.1], pp.1⟩), pp.2)

/-- The mapper's observable construction result. -/
structure Mapper where
  mappings : List (String × KeyMapping)
  surpriseKey : String
deriving DecidableEq

/-- Source `new KeyboardMapper(seed)` / `generateMappings()`: surprise-key draw, then
the non-control keys in canonical order, then the control keys. -/
def mkMapper (seed : ℤ) : Mapper :=
  let p := srChoice randomKeys "" seed
  let q := mapState keyEntry p.2 randomKeys
  let r := mapState controlEntry q.2 controlKeys
  { mappings := q.1 ++ r.1, surpriseKey := p.1 }

/-- First-match association lookup (`Map.get` on a Map with unique keys). -/
def alookup {β : Type} : List (String × β) → String → Option β
  | [], _ => none
  | p :: t, k => if p.1 = k then some p.2 else alookup t k

/-- Source `getMapping(key)`: `this.mappings.get(key.toLowerCase()) || null`. -/
def getMapping (m : Mapper) (key : String) : Option KeyMapping :=
  alookup m.mappings (jsToLower key)

/-- Source `isSurpriseKey(key)`: `key.toLowerCase() === this.surpriseKey`. -/
def isSurpriseKey (m : Mapper) (key : String) : Bool :=
  jsToLower key == m.surpriseKey

/-! ## Supporting lemmas for the mapper claims -/

theorem toLower_def (c : Char) :
    c.toLower = if c.toNat ≥ 65 ∧ c.toNat ≤ 90 then Char.ofNat (c.toNat + 32) else c := rfl

theorem ofNat_toNat_upper (n : ℕ) (h1 : 65 ≤ n) (h2 : n ≤ 90) :
    (Char.ofNat (n + 32)).toNat = n + 32 := by
  interval_cases n <;> decide

theorem charToLower_idem (c : Char) : c.toLower.toLower = c.toLower := by
  by_cases h : c.toNat ≥ 65 ∧ c.toNat ≤ 90
  · have h1 : c.toLower = Char.ofNat (c.toNat + 32) := by rw [toLower_def, if_pos h]
    have ht := ofNat_toNat_upper c.toNat h.1 h.2
    rw [h1, toLower_def, ht, if_neg (by omega)]
  · have h1 : c.toLower = c := by rw [toLower_def, if_neg h]
    rw [h1, h1]

theorem jsToLower_idem (s : String) : jsToLower (jsToLower s) = jsToLower s := by
  unfold jsToLower
  refine congrArg String.mk ?_
  show (s.data.map Char.toLower).map Char.toLower = s.data.map Char.toLower
  rw [List.map_map]
  exact List.map_congr_left fun c _ => charToLower_idem c

theorem mapState_fst_eq {σ β : Type} (f : σ → String → (String × β) × σ)
    (hf : ∀ s a, ((f s a).1).1 = a) :
    ∀ (l : List String) (s : σ), ((mapState f s l).1).map Prod.fst = l := by
  intro l
  induction l with
  | nil => intro s; rfl
  | cons a t ih => intro s; simp [mapState, hf, ih]

theorem alookup_isSome {β : Type} (l : List (String × β)) (k : String) :
    (alookup l k).isSome = true ↔ k ∈ l.map Prod.fst := by
  induction l with
  | nil => simp [alookup]
  | cons p t ih =>
    by_cases h : p.1 = k
    · simp [alookup, h]
    · simp [alookup, h, ih, Ne.symm h]

theorem mkMapper_keys (seed : ℤ) :
    (mkMapper seed).mappings.map Prod.fst = randomKeys ++ controlKeys := by
  show ((mapState keyEntry _ randomKeys).1 ++ (mapState controlEntry _ controlKeys).1).map
      Prod.fst = randomKeys ++ controlKeys
  rw [List.map_append, mapState_fst_eq keyEntry (fun _ _ => rfl),
    mapState_fst_eq controlEntry (fun _ _ => rfl)]

theorem mem_randomControl_iff (k : String) :
    k ∈ randomKeys ++ controlKeys ↔ k ∈ allKeys := by
  constructor
  · intro h
    rcases List.mem_append.mp h with h | h
    · exact (List.mem_filter.mp h).1
    · fin_cases h <;> decide
  · intro h
    by_cases hc : k ∈ controlKeys
    · exact List.mem_append.mpr (Or.inr hc)
    · refine List.mem_append.mpr (Or.inl (List.mem_filter.mpr ⟨h, ?_⟩))
      simpa using hc

/-! ## Claim theorems: C1 and C10 -/

/-- C1: two `SeededRandom` instances constructed with the same integer seed and
driven by the same finite sequence of operations (`next`, `range`, `int`,
`choice`, `shuffle`, `weightedChoice`) yield identical outputs at every step,
and two `KeyboardMapper` instances constructed with the same seed produce the
same surprise key and element-by-element identical mapping tables. -/
theorem generator_replay_determinism (s t : ℤ) (ops : List SROp) (h : s = t) :
    runSROps ops s = runSROps ops t ∧
    (mkMapper s).surpriseKey = (mkMapper t).surpriseKey ∧
    ∀ k, getMapping (mkMapper s) k = getMapping (mkMapper t) k := by
  subst h
  exact ⟨rfl, rfl, fun _ => rfl⟩

/-- Witness for C1 at seed 42 and a concrete operation sequence. -/
theorem generator_replay_determinism_witness :
    (42 : ℤ) = 42 ∧
    (runSROps [SROp.next, SROp.int 1 4, SROp.choice [1, 2, 3]] 42 =
        runSROps [SROp.next, SROp.int 1 4, SROp.choice [1, 2, 3]] 42 ∧
      (mkMapper 42).surpriseKey = (mkMapper 42).surpriseKey ∧
      ∀ k, getMapping (mkMapper 42) k = getMapping (mkMapper 42) k) :=
  ⟨rfl, generator_replay_determinism 42 42 [SROp.next, SROp.int 1 4, SROp.choice [1, 2, 3]] rfl⟩

/-- C10: key lookup is case-insensitive at the public interface: `getMapping`
agrees on a key and its lowercasing, is populated exactly on the 36
alphanumeric symbols (`null` otherwise), and `isSurpriseKey` holds exactly when
the lowercased key equals the session's surprise key. -/
theorem getMapping_case_insensitive (seed : ℤ) (key : String) :
    getMapping (mkMapper seed) key = getMapping (mkMapper seed) (jsToLower key) ∧
    ((getMapping (mkMapper seed) key).isSome = true ↔ jsToLower key ∈ allKeys) ∧
    (isSurpriseKey (mkMapper seed) key = true ↔
      jsToLower key = (mkMapper seed).surpriseKey) := by
  refine ⟨?_, ?_, ?_⟩
  · show alookup _ (jsToLower key) = alookup _ (jsToLower (jsToLower key))
    rw [jsToLower_idem]
  · show (alookup _ (jsToLower key)).isSome = true ↔ _
    rw [alookup_isSome, mkMapper_keys]
    exact mem_randomControl_iff _
  · exact beq_iff_eq

/-! ## AudioEngine (`src/core/AudioEngine.ts`)

The engine owns one `SeededRandom(seed)`; its constructor generates a
two-octave pentatonic scale from it, and `playNote(mode)` triggers one voice
when the polyphony ceiling is not reached.  Notes are modelled by their MIDI
numbers (the source's `Tone.Frequency(...).toMidi()` values); `activeNotes` is
the source's `Set` of triggered notes.  `setTimeout` voice release is a
separate event that never fires in the claim's regime (no duration elapses), so
it is not part of `playNote`. -/

inductive SynthMode : Type
  | bass | melody | percussion | chaos | mixed
deriving DecidableEq

inductive SynthRef : Type
  | bassS | melodyS | percussionS | chaosS | stringS
deriving DecidableEq

/-- Source `ROOT_NOTES = ['C3','D3','E3','F3','G3','A3']` as MIDI numbers. -/
def ROOT_NOTES_MIDI : List ℕ := [48, 50, 52, 53, 55, 57]

/-- Source `SCALES.pentatonic`. -/
def pentatonicScale : List ℕ := [0, 2, 4, 7, 9]

/-- Source `generateScaleNotes()`: root choice, then two octaves of the pentatonic
intervals over the root. -/
def generateScaleNotes (s : SRState) : List ℕ × SRState :=
  let p := srChoice ROOT_NOTES_MIDI 48 s
  ((List.range 2).flatMap (fun oct => pentatonicScale.map (fun i => p.1 + i + 12 * oct)), p.2)

/-- Source `getSynthForMode(mode)`; the `'mixed'` case draws one of three synths. -/
def getSynthForMode (mode : SynthMode) (s : SRState) : SynthRef × SRState :=
  match mode with
  | .bass => (.bassS, s)
  | .melody => (.melodyS, s)
  | .percussion => (.percussionS, s)
  | .chaos => (.chaosS, s)
  | .mixed => srChoice [.bassS, .melodyS, .chaosS] .bassS s

/-- Source `CONFIG.MAX_POLYPHONY`. -/
def MAX_POLYPHONY : ℕ := 8

structure AudioEngineState where
  inited : Bool
  activeNotes : Finset ℕ
  rng : SRState
  scaleNotes : List ℕ
deriving DecidableEq

/-- Constructor plus a completed `init()` call. -/
def initAudioEngine (seed : ℤ) : AudioEngineState :=
  let p := generateScaleNotes seed
  { inited := true, activeNotes := ∅, rng := p.2, scaleNotes := p.1 }

/-- Source `playNote(mode)`: no-op when uninitialized or at the polyphony ceiling;
otherwise draw synth (for `'mixed'`), note, duration, velocity and detune, and
add the note to the active set. -/
def playNote (mode : SynthMode) (st : AudioEngineState) : AudioEngineState :=
  if st.inited = false then st
  else if MAX_POLYPHONY ≤ st.activeNotes.card then st
  else
    let psy := getSynthForMode mode st.rng
    let pn := srChoice st.scaleNotes 0 psy.2
    let pd := srChoice ["16n", "8n", "4n"] "4n" pn.2
    let pv := srNext pd.2
    let pdt := srNext pv.2
    { st with activeNotes := insert pn.1 st.activeNotes, rng := pdt.2 }

theorem playNote_card_step (m : SynthMode) (st : AudioEngineState)
    (h : st.activeNotes.card ≤ MAX_POLYPHONY) :
    (playNote m st).activeNotes.card ≤ MAX_POLYPHONY := by
  unfold playNote
  by_cases h1 : st.inited = false
  · rw [if_pos h1]; exact h
  · rw [if_neg h1]
    by_cases h2 : MAX_POLYPHONY ≤ st.activeNotes.card
    · rw [if_pos h2]; exact h
    · rw [if_neg h2]
      have := Finset.card_insert_le
        (srChoice st.scaleNotes 0 (getSynthForMode m st.rng).2).1 st.activeNotes
      simp only []
      omega

/-- C2: over any sequence of `playNote(mode)` calls on an initialized engine
during which no voice is released, the number of concurrently triggered capped
voices never exceeds `MAX_POLYPHONY` (8); and each call made at or past the
ceiling is a no-op on the whole engine state. -/
theorem playNote_polyphony_bound :
    (∀ (seed : ℤ) (modes : List SynthMode),
      ((modes.foldl (fun st m => playNote m st) (initAudioEngine seed)).activeNotes.card
        ≤ MAX_POLYPHONY)) ∧
    (∀ (st : AudioEngineState) (m : SynthMode),
      MAX_POLYPHONY ≤ st.activeNotes.card → playNote m st = st) := by
  constructor
  · intro seed modes
    have key : ∀ (ms : List SynthMode) (st : AudioEngineState),
        st.activeNotes.card ≤ MAX_POLYPHONY →
        (ms.foldl (fun st m => playNote m st) st).activeNotes.card ≤ MAX_POLYPHONY := by
      intro ms
      induction ms with
      | nil => intro st h; exact h
      | cons m t ih => intro st h; exact ih _ (playNote_card_step m st h)
    refine key modes _ ?_
    show (initAudioEngine seed).activeNotes.card ≤ MAX_POLYPHONY
    simp [initAudioEngine, MAX_POLYPHONY]
  · intro st m h
    unfold playNote
    by_cases h1 : st.inited = false
    · rw [if_pos h1]
    · rw [if_neg h1, if_pos h]

/-- A full engine state: eight triggered notes. -/
def fullAudioState : AudioEngineState :=
  { inited := true, activeNotes := {48, 50, 52, 55, 57, 60, 62, 64},
    rng := 0, scaleNotes := [48, 50, 52, 55, 57, 60, 62, 64, 67, 69] }

/-- Witness for C2: a ninth simultaneous `playNote` on a full engine is a
no-op. -/
theorem playNote_polyphony_bound_witness :
    MAX_POLYPHONY ≤ fullAudioState.activeNotes.card ∧
      playNote SynthMode.bass fullAudioState = fullAudioState :=
  ⟨by decide, playNote_polyphony_bound.2 fullAudioState SynthMode.bass (by decide)⟩

/-! ## LoopLayerManager (`LoopLayerManager.ts`, bundled in `AudioEngine.ts`)

Four layers keyed 1–4 in a `Map`; every control operates on the single
selected layer and is a no-op when that layer has no sequence.  The `Tone`
sequence object itself is audio-side; the observable layer state is whether a
sequence exists, the playing flag, the pitch offset, the tempo multiplier and
the pattern. -/

structure LoopLayer where
  id : ℤ
  hasLoop : Bool
  hasSequence : Bool
  playing : Bool
  pitch : ℚ
  tempo : ℚ
  pattern : List String
deriving DecidableEq

structure LoopManagerState where
  layers : List LoopLayer
  selectedLayer : ℤ
  rng : SRState
deriving DecidableEq

/-- One freshly constructed empty layer. -/
def initLayer (i : ℤ) : LoopLayer :=
  { id := i, hasLoop := false, hasSequence := false, playing := false,
    pitch := 0, tempo := 1, pattern := [] }

/-- Source `new LoopLayerManager(seed)`. -/
def initLoopManager (seed : ℤ) : LoopManagerState :=
  { layers := [initLayer 1, initLayer 2, initLayer 3, initLayer 4],
    selectedLayer := 1, rng := seed }

/-- Mutating `layers.get(i)!` in place: rewrite the entry whose id is `i`. -/
def updateLayer (ls : List LoopLayer) (i : ℤ) (f : LoopLayer → LoopLayer) :
    List LoopLayer :=
  ls.map (fun l => if l.id = i then f l else l)

/-- Source `cycleLayer()`: `(selectedLayer % 4) + 1`. -/
def cycleLayer (st : LoopManagerState) : LoopManagerState :=
  { st with selectedLayer := (jsMod st.selectedLayer 4) + 1 }

/-- The pattern/playing replacement performed on the drawn layer. -/
def assignPattern (notes : List String) (l : LoopLayer) : LoopLayer :=
  { l with hasSequence := true, pattern := notes, playing := true }

/-- Source `addLoopToRandomLayer(synth, notes, duration)`: draw a layer uniformly in
`[1,4]`, replace its sequence and pattern, and start it playing; pitch and
tempo of the target layer are kept, other layers are untouched.  Returns the
drawn layer id alongside the new state. -/
def addLoopToRandomLayer (notes : List String) (dur : String)
    (st : LoopManagerState) : LoopManagerState × ℤ :=
  let p := srInt 1 4 st.rng
  ({ st with rng := p.2, layers := updateLayer st.layers p.1 (assignPattern notes) }, p.1)

/-- Source `togglePlayPause()` on the selected layer. -/
def togglePlayPause (st : LoopManagerState) : LoopManagerState :=
  { st with layers := updateLayer st.layers st.selectedLayer (fun l =>
      if l.hasSequence then { l with playing := !l.playing } else l) }

/-- Source `adjustPitch(semitones)`: clamp the selected layer's offset into [-12,12];
no-op when the layer has no sequence. -/
def adjustPitch (semitones : ℚ) (st : LoopManagerState) : LoopManagerState :=
  { st with layers := updateLayer st.layers st.selectedLayer (fun l =>
      if l.hasSequence then
        { l with pitch := max (-12) (min 12 (l.pitch + semitones)) }
      else l) }

/-- Source `adjustTempo(multiplier)`: clamp the selected layer's multiplier into
[0.25, 4.0]; no-op when the layer has no sequence. -/
def adjustTempo (m : ℚ) (st : LoopManagerState) : LoopManagerState :=
  { st with layers := updateLayer st.layers st.selectedLayer (fun l =>
      if l.hasSequence then
        { l with tempo := max 0.25 (min 4.0 (l.tempo * m)) }
      else l) }

/-- One loop-manager call. -/
inductive LoopOp : Type
  | addLoop (notes : List String) (dur : String)
  | toggle
  | adjustPitch (semitones : ℚ)
  | adjustTempo (m : ℚ)
  | cycle
deriving DecidableEq

def runLoopOp (op : LoopOp) (st : LoopManagerState) : LoopManagerState :=
  match op with
  | .addLoop notes dur => (addLoopToRandomLayer notes dur st).1
  | .toggle => togglePlayPause st
  | .adjustPitch q => adjustPitch q st
  | .adjustTempo q => adjustTempo q st
  | .cycle => cycleLayer st

def runLoopOps (ops : List LoopOp) (st : LoopManagerState) : LoopManagerState :=
  ops.foldl (fun st op => runLoopOp op st) st

/-- The clamp ranges of the spec: pitch in [-12,12], tempo in [0.25,4.0]. -/
def layerInBounds (l : LoopLayer) : Prop :=
  -12 ≤ l.pitch ∧ l.pitch ≤ 12 ∧ (0.25 : ℚ) ≤ l.tempo ∧ l.tempo ≤ 4

instance : DecidablePred layerInBounds := fun l => by
  unfold layerInBounds; infer_instance

theorem updateLayer_bounds (st : LoopManagerState)
    (h : ∀ l ∈ st.layers, layerInBounds l) (i : ℤ) (f : LoopLayer → LoopLayer)
    (hf : ∀ l, layerInBounds l → layerInBounds (f l)) :
    ∀ l ∈ updateLayer st.layers i f, layerInBounds l := by
  intro l hl
  rcases List.mem_map.mp hl with ⟨a, ha, rfl⟩
  by_cases hid : a.id = i
  · rw [if_pos hid]; exact hf a (h a ha)
  · rw [if_neg hid]; exact h a ha

theorem runLoopOp_bounds (op : LoopOp) (st : LoopManagerState)
    (h : ∀ l ∈ st.layers, layerInBounds l) :
    ∀ l ∈ (runLoopOp op st).layers, layerInBounds l := by
  have h40 : (4.0 : ℚ) = 4 := by norm_num
  cases op with
  | addLoop notes dur =>
    dsimp only [runLoopOp, addLoopToRandomLayer]
    refine updateLayer_bounds st h _ _ ?_
    intro l hb
    exact ⟨hb.1, hb.2.1, hb.2.2.1, hb.2.2.2⟩
  | toggle =>
    dsimp only [runLoopOp, togglePlayPause]
    refine updateLayer_bounds st h _ _ ?_
    intro l hb
    by_cases hs : l.hasSequence
    · rw [if_pos hs]; exact ⟨hb.1, hb.2.1, hb.2.2.1, hb.2.2.2⟩
    · rw [if_neg hs]; exact hb
  | adjustPitch q =>
    dsimp only [runLoopOp, adjustPitch]
    refine updateLayer_bounds st h _ _ ?_
    intro l hb
    by_cases hs : l.hasSequence
    · rw [if_pos hs]
      exact ⟨le_max_left _ _, max_le (by norm_num) (min_le_left _ _),
        hb.2.2.1, hb.2.2.2⟩
    · rw [if_neg hs]; exact hb
  | adjustTempo q =>
    dsimp only [runLoopOp, adjustTempo]
    refine updateLayer_bounds st h _ _ ?_
    intro l hb
    by_cases hs : l.hasSequence
    · rw [if_pos hs]
      refine ⟨hb.1, hb.2.1, le_max_left _ _, ?_⟩
      rw [← h40]
      exact max_le (by norm_num) (min_le_left _ _)
    · rw [if_neg hs]; exact hb
  | cycle => exact h

/-- C4: for every layer and every sequence of loop-manager calls (in
particular any mix of `adjustPitch`/`adjustTempo` of any sign and magnitude on
whatever layer is selected), the stored pitch offset stays within [-12,12] and
the stored tempo multiplier stays within [0.25,4.0] after every call. -/
theorem adjust_clamp_invariant (seed : ℤ) (ops : List LoopOp) (l : LoopLayer)
    (hl : l ∈ (runLoopOps ops (initLoopManager seed)).layers) :
    -12 ≤ l.pitch ∧ l.pitch ≤ 12 ∧ (0.25 : ℚ) ≤ l.tempo ∧ l.tempo ≤ 4 := by
  have key : ∀ (ops : List LoopOp) (st : LoopManagerState),
      (∀ l ∈ st.layers, layerInBounds l) →
      ∀ l ∈ (runLoopOps ops st).layers, layerInBounds l := by
    intro ops
    induction ops with
    | nil => intro st h; exact h
    | cons op t ih => intro st h; exact ih _ (runLoopOp_bounds op st h)
  have init : ∀ l ∈ (initLoopManager seed).layers, layerInBounds l := by
    intro l hl
    fin_cases hl <;> exact ⟨by norm_num [initLayer], by norm_num [initLayer],
      by norm_num [initLayer], by norm_num [initLayer]⟩
  exact key ops (initLoopManager seed) init l hl

/-- Witness for C4: the first layer of a fresh manager. -/
theorem adjust_clamp_invariant_witness :
    (initLayer 1) ∈ (runLoopOps [] (initLoopManager 0)).layers ∧
      (-12 ≤ (initLayer 1).pitch ∧ (initLayer 1).pitch ≤ 12 ∧
        (0.25 : ℚ) ≤ (initLayer 1).tempo ∧ (initLayer 1).tempo ≤ 4) :=
  ⟨List.mem_cons_self _ _,
    adjust_clamp_invariant 0 [] (initLayer 1) (List.mem_cons_self _ _)⟩

/-- Source `getLayerInfo`-style view of a single layer by id. -/
def layerById (st : LoopManagerState) (j : ℤ) : Option LoopLayer :=
  st.layers.find? (fun l => l.id == j)

theorem find_updateLayer (ls : List LoopLayer) (i j : ℤ) (f : LoopLayer → LoopLayer)
    (hf : ∀ l, (f l).id = l.id) (hne : j ≠ i) :
    (updateLayer ls i f).find? (fun l => l.id == j) = ls.find? (fun l => l.id == j) := by
  have hij : (i == j) = false := beq_eq_false_iff_ne.mpr (Ne.symm hne)
  induction ls with
  | nil => rfl
  | cons l t ih =>
    by_cases hid : l.id = i
    · have hidj : (l.id == j) = false := by rw [hid]; exact hij
      have hfl : ((f l).id == j) = false := by rw [hf, hid]; exact hij
      simp only [updateLayer, List.map_cons, if_pos hid, List.find?_cons, hfl, hidj]
      exact ih
    · by_cases hlj : l.id = j
      · simp only [updateLayer, List.map_cons, if_neg hid, List.find?_cons,
          beq_iff_eq.mpr hlj]
      · have hidj : (l.id == j) = false := beq_eq_false_iff_ne.mpr hlj
        simp only [updateLayer, List.map_cons, if_neg hid, List.find?_cons, hidj]
        exact ih

/-- C5: when `addLoopToRandomLayer`'s uniform draw selects layer `i`, every
other layer `j ≠ i` is left entirely unchanged: same pattern, pitch offset,
tempo multiplier and playing flag. -/
theorem addLoop_layer_isolation (st : LoopManagerState) (notes : List String)
    (dur : String) (i j : ℤ) (hdraw : (srInt 1 4 st.rng).1 = i) (hne : j ≠ i) :
    layerById (addLoopToRandomLayer notes dur st).1 j = layerById st j := by
  unfold layerById addLoopToRandomLayer
  dsimp only
  rw [hdraw]
  exact find_updateLayer st.layers i j _ (fun l => rfl) hne

/-- Witness for C5: from a concrete state the draw selects layer 1; layer 2 is
unchanged by the assignment. -/
theorem addLoop_layer_isolation_witness :
    ((srInt 1 4 (initLoopManager 0).rng).1 = 1 ∧ (2 : ℤ) ≠ 1) ∧
      layerById (addLoopToRandomLayer ["C3", "G3"] "8n" (initLoopManager 0)).1 2 =
        layerById (initLoopManager 0) 2 := by
  have hdraw : (srInt 1 4 (initLoopManager 0).rng).1 = 1 := by
    norm_num [srInt, srRange, srNext, jsMod, M32, initLoopManager]
  exact ⟨⟨hdraw, by decide⟩,
    addLoop_layer_isolation (initLoopManager 0) ["C3", "G3"] "8n" 1 2 hdraw (by decide)⟩

/-! ## VisualEngine (`VisualEngine.ts`)

Permanent elements, the placement search, and the freehand stroke state
machine.  The canvas is `2000 × 2000` after `init`; wall-clock fields
(`birthTime`) are outside the embedding.  `Math.PI` is the float64 constant
`884279719003555 / 2^48`. -/

/-- The float64 value of `Math.PI`. -/
def jsPI : ℚ := 884279719003555 / 281474976710656

/-- Source `MAX_PERMANENT_ELEMENTS`. -/
def MAX_PERMANENT_ELEMENTS : ℕ := 100

def SHAPES : List String := ["circle", "square", "triangle", "star", "heart"]

def SYMBOLS : List String := ["★", "♥", "●", "■", "▲", "✿", "☀", "☾"]

def BABY_WORDS : List String :=
  ["MAMA", "MAMA", "MAMA", "BABA", "BABA", "DADA", "DADA", "MUM", "MUM",
   "WOW", "YAY", "BOO", "HI", "BYE", "UP", "YES", "FUN", "HAPPY",
   "LOLA", "DOODLE"]

def ANIMALS : List String :=
  ["🐱", "🐶", "🐦", "🐠", "🐰", "🐻", "🐼", "🐨", "🐸", "🐷", "🐮", "🐵",
   "🦁", "🐯", "🦊", "🐔", "🦆", "🐝", "🦋", "🐛", "🐙", "🦀", "🐢", "🐘",
   "🌈", "⭐", "🌟", "💫", "✨", "🎈", "🎉", "🎊", "🎁", "🍎", "🍌", "🍓",
   "🌸", "🌺", "🌻", "🌼", "☀️", "🌙", "⚽", "🏀", "🎨", "🎭", "🎪", "🎡"]

def NUMBERS : List String := ["1", "2", "3", "4", "5", "6", "7", "8", "9", "0"]

/-- One permanent canvas element (claim-relevant observable fields). -/
structure PermElem where
  id : ℕ
  etype : String
  x : ℚ
  y : ℚ
  color : String
  size : ℚ
  rotation : ℚ
  baseScale : ℚ
  dataStr : Option String
  opacity : ℚ
  fadingOut : Bool
deriving DecidableEq

/-- A freehand stroke (points plus its fixed style). -/
structure DrawingStroke where
  points : List (ℚ × ℚ)
  color : String
  thickness : ℚ
  pattern : String
deriving DecidableEq

/-- The style drawn once when a stroke begins. -/
structure DrawStyle where
  color : String
  thickness : ℚ
  pattern : String
deriving DecidableEq

/-- The engine state after `init(canvas)` (canvas present, render loop not
modelled: claims C3/C6/C7/C8 are about trigger-call behavior between render
ticks). -/
structure VEState where
  rng : SRState
  width : ℚ
  height : ℚ
  palette : List String
  permanentElements : List PermElem
  elementIdCounter : ℕ
  isDrawing : Bool
  currentStroke : Option DrawingStroke
  completedStrokes : List DrawingStroke
  currentDrawStyle : Option DrawStyle
deriving DecidableEq

/-- Source `new VisualEngine(seed, colorScheme)` followed by `init(canvas)`. -/
def initVisualEngine (seed : ℤ) (palette : List String) : VEState :=
  { rng := seed, width := 2000, height := 2000, palette := palette,
    permanentElements := [], elementIdCounter := 0, isDrawing := false,
    currentStroke := none, completedStrokes := [], currentDrawStyle := none }

/-- One candidate draw of `findGoodPosition`: an x then a y `range` draw
within bounds minus the margin. -/
def drawCand (margin w h : ℚ) (s : SRState) : (ℚ × ℚ) × SRState :=
  let px := srRange margin (w - margin) s
  let py := srRange margin (h - margin) px.2
  ((px.1, py.1), py.2)

/-- The collision test of `findGoodPosition` against one element:
`Math.sqrt((x-ex)^2+(y-ey)^2) < (size+e.size)/2 + 40`, in squared form
(equivalent: the square root is nonnegative and squaring is monotone). -/
def collidesWith (x y size : ℚ) (e : PermElem) : Bool :=
  let thr := (size + e.size) / 2 + 40
  decide (0 < thr) && decide ((x - e.x) ^ 2 + (y - e.y) ^ 2 < thr ^ 2)

/-- Source `permanentElements.slice(-15)`: the most recent (up to) 15 elements. -/
def recentWindow (l : List PermElem) : List PermElem := l.drop (l.length - 15)

/-- The attempt loop of `findGoodPosition` with `fuel` tries left: accept the
first non-colliding candidate; when the budget is exhausted, draw one more
unchecked candidate (the source's fallback). -/
def fgpLoop (elems : List PermElem) (size margin w h : ℚ) :
    ℕ → SRState → (ℚ × ℚ) × SRState
  | 0, s => drawCand margin w h s
  | n + 1, s =>
    let c := drawCand margin w h s
    if (recentWindow elems).any (collidesWith c.1.1 c.1.2 size) then
      fgpLoop elems size margin w h n c.2
    else c

/-- Source `findGoodPosition(size)`: margin `size + 20`, 20 attempts. -/
def findGoodPosition (st : VEState) (size : ℚ) : (ℚ × ℚ) × SRState :=
  fgpLoop st.permanentElements size (size + 20) st.width st.height 20 st.rng

/-- Modelled from the spec: the spec's placement contract for
`findPosition(size)` — identical attempt loop, but "if none qualify after the
attempt budget, returns the last drawn candidate anyway" instead of drawing a
fresh 21st candidate. -/
def fgpLoopSpec (elems : List PermElem) (size margin w h : ℚ) :
    ℕ → SRState → (ℚ × ℚ) × SRState
  | 0, s => drawCand margin w h s
  | n + 1, s =>
    let c := drawCand margin w h s
    if n = 0 then c
    else if (recentWindow elems).any (collidesWith c.1.1 c.1.2 size) then
      fgpLoopSpec elems size margin w h n c.2
    else c

/-- Modelled from the spec: `findPosition(size)` as the spec words it. -/
def findGoodPositionSpec (st : VEState) (size : ℚ) : (ℚ × ℚ) × SRState :=
  fgpLoopSpec st.permanentElements size (size + 20) st.width st.height 20 st.rng

/-- Mark the oldest not-already-fading element (`find(e => !e.fadingOut)` then
`fadingOut = true; opacity = 1`). -/
def markOldestNonFading : List PermElem → List PermElem
  | [] => []
  | e :: t =>
    if e.fadingOut then e :: markOldestNonFading t
    else { e with fadingOut := true, opacity := 1 } :: t

/-- Source `getDataForType(type)`. -/
def getDataForType (t : String) (s : SRState) : Option String × SRState :=
  if t = "shape" then let p := srChoice SHAPES "circle" s; (some p.1, p.2)
  else if t = "symbol" then let p := srChoice SYMBOLS "★" s; (some p.1, p.2)
  else if t = "word" then let p := srChoice BABY_WORDS "MAMA" s; (some p.1, p.2)
  else if t = "animal" then let p := srChoice ANIMALS "🐱" s; (some p.1, p.2)
  else if t = "number" then let p := srChoice NUMBERS "1" s; (some p.1, p.2)
  else (none, s)

/-- Source `addPermanentElement(type)` (random-position path): mark the oldest
not-already-fading element when at capacity, then draw size, position, color,
rotation and data, and append the new full-opacity element. -/
def addPermanentElement (t : String) (st : VEState) : VEState :=
  let elems :=
    if MAX_PERMANENT_ELEMENTS ≤ st.permanentElements.length then
      markOldestNonFading st.permanentElements
    else st.permanentElements
  let ps := srRange 40 120 st.rng
  let pos := findGoodPosition { st with rng := ps.2, permanentElements := elems } ps.1
  let pc := srChoice st.palette "" pos.2
  let pr := srRange 0 (jsPI * 2) pc.2
  let pd := getDataForType t pr.2
  let e : PermElem :=
    { id := st.elementIdCounter, etype := t, x := pos.1.1, y := pos.1.2,
      color := pc.1, size := ps.1, rotation := pr.1, baseScale := 1,
      dataStr := pd.1, opacity := 1, fadingOut := false }
  { st with
    rng := pd.2,
    permanentElements := elems ++ [e],
    elementIdCounter := st.elementIdCounter + 1 }

/-! ### Claim C3: cap eviction -/

/-- The elements split as `k` fading-opacity-1 oldest followed by
full-opacity non-fading recent ones. -/
def fadedSplit (k : ℕ) (l : List PermElem) : Prop :=
  ∃ A B : List PermElem, l = A ++ B ∧ A.length = k ∧
    (∀ e ∈ A, e.fadingOut = true ∧ e.opacity = 1) ∧
    (∀ e ∈ B, e.fadingOut = false ∧ e.opacity = 1)

theorem markOldest_split (A : List PermElem) (hA : ∀ e ∈ A, e.fadingOut = true)
    (b : PermElem) (hb : b.fadingOut = false) (B : List PermElem) :
    markOldestNonFading (A ++ b :: B) =
      A ++ ({ b with fadingOut := true, opacity := 1 } :: B) := by
  induction A with
  | nil => simp [markOldestNonFading, hb]
  | cons a t ih =>
    have ha := hA a (List.mem_cons_self a t)
    simp only [List.cons_append, markOldestNonFading, ha, if_pos, List.append_eq]
    rw [ih (fun e he => hA e (List.mem_cons_of_mem a he))]

theorem addPerm_elems (t : String) (st : VEState) :
    ∃ e : PermElem, e.fadingOut = false ∧ e.opacity = 1 ∧
      (addPermanentElement t st).permanentElements =
        (if MAX_PERMANENT_ELEMENTS ≤ st.permanentElements.length then
          markOldestNonFading st.permanentElements
        else st.permanentElements) ++ [e] :=
  ⟨_, rfl, rfl, rfl⟩

theorem addPerm_step (t : String) (st : VEState) (n : ℕ)
    (hlen : st.permanentElements.length = n)
    (hsplit : fadedSplit (n - MAX_PERMANENT_ELEMENTS) st.permanentElements) :
    (addPermanentElement t st).permanentElements.length = n + 1 ∧
      fadedSplit (n + 1 - MAX_PERMANENT_ELEMENTS)
        (addPermanentElement t st).permanentElements := by
  obtain ⟨A, B, hAB, hAlen, hAfade, hBlive⟩ := hsplit
  obtain ⟨e, hef, heo, helems⟩ := addPerm_elems t st
  have hM : MAX_PERMANENT_ELEMENTS = 100 := rfl
  by_cases hcap : MAX_PERMANENT_ELEMENTS ≤ n
  · -- at capacity: the head of `B` is marked, the new element is appended
    have hBlen : B.length = MAX_PERMANENT_ELEMENTS := by
      have := congrArg List.length hAB
      simp only [List.length_append] at this
      omega
    obtain ⟨b, B', rfl⟩ : ∃ b B', B = b :: B' := by
      cases B with
      | nil => simp [MAX_PERMANENT_ELEMENTS] at hBlen
      | cons b B' => exact ⟨b, B', rfl⟩
    simp only [List.length_cons] at hBlen
    have hb := hBlive b (List.mem_cons_self b B')
    have hmark : markOldestNonFading st.permanentElements =
        A ++ ({ b with fadingOut := true, opacity := 1 } :: B') := by
      rw [hAB]
      exact markOldest_split A (fun e he => (hAfade e he).1) b hb.1 B'
    have hcap' : MAX_PERMANENT_ELEMENTS ≤ st.permanentElements.length := by omega
    rw [helems, if_pos hcap', hmark]
    constructor
    · simp only [List.length_append, List.length_cons, List.length_singleton, List.length_nil]
      omega
    · refine ⟨A ++ [{ b with fadingOut := true, opacity := 1 }], B' ++ [e], ?_, ?_, ?_, ?_⟩
      · simp
      · simp only [List.length_append, List.length_singleton, List.length_cons, List.length_nil]
        omega
      · intro x hx
        rcases List.mem_append.mp hx with hx | hx
        · exact hAfade x hx
        · rcases List.mem_singleton.mp hx with rfl
          exact ⟨rfl, rfl⟩
      · intro x hx
        rcases List.mem_append.mp hx with hx | hx
        · exact hBlive x (List.mem_cons_of_mem b hx)
        · rcases List.mem_singleton.mp hx with rfl
          exact ⟨hef, heo⟩
  · -- below capacity: nothing is marked
    have hA0 : A = [] := by
      have : A.length = 0 := by omega
      exact List.length_eq_zero.mp this
    have hcap' : ¬ MAX_PERMANENT_ELEMENTS ≤ st.permanentElements.length := by omega
    rw [helems, if_neg hcap']
    constructor
    · simp only [List.length_append, List.length_singleton, List.length_cons, List.length_nil]
      omega
    · refine ⟨[], st.permanentElements ++ [e], by simp, ?_, by simp, ?_⟩
      · simp [MAX_PERMANENT_ELEMENTS]
        omega
      · intro x hx
        rcases List.mem_append.mp hx with hx | hx
        · have : x ∈ A ++ B := by rw [← hAB]; exact hx
          rcases List.mem_append.mp this with hx' | hx'
          · rw [hA0] at hx'
            simp at hx'
          · exact hBlive x hx'
        · rcases List.mem_singleton.mp hx with rfl
          exact ⟨hef, heo⟩

/-- C3: starting from an empty engine, after `(cap + k)` calls of
`addPermanentElement` with no render ticks in between, exactly the `k`
originally-oldest elements carry the `fadingOut` flag (each still at the
opacity 1 the fade starts from), and the most recent `cap = 100` elements are
all at full opacity and not fading. -/
theorem cap_eviction_correct (seed : ℤ) (palette : List String)
    (ts : List String) (k : ℕ) (hts : ts.length = MAX_PERMANENT_ELEMENTS + k) :
    ((ts.foldl (fun st t => addPermanentElement t st)
        (initVisualEngine seed palette)).permanentElements.length =
      MAX_PERMANENT_ELEMENTS + k) ∧
    (∀ e ∈ (ts.foldl (fun st t => addPermanentElement t st)
        (initVisualEngine seed palette)).permanentElements.take k,
      e.fadingOut = true ∧ e.opacity = 1) ∧
    (∀ e ∈ (ts.foldl (fun st t => addPermanentElement t st)
        (initVisualEngine seed palette)).permanentElements.drop k,
      e.fadingOut = false ∧ e.opacity = 1) := by
  have key : ∀ (ts : List String) (st : VEState) (n : ℕ),
      st.permanentElements.length = n →
      fadedSplit (n - MAX_PERMANENT_ELEMENTS) st.permanentElements →
      (ts.foldl (fun st t => addPermanentElement t st) st).permanentElements.length
          = n + ts.length ∧
        fadedSplit (n + ts.length - MAX_PERMANENT_ELEMENTS)
          (ts.foldl (fun st t => addPermanentElement t st) st).permanentElements := by
    intro ts
    induction ts with
    | nil => intro st n h1 h2; exact ⟨by simpa using h1, by simpa using h2⟩
    | cons t rest ih =>
      intro st n h1 h2
      obtain ⟨g1, g2⟩ := addPerm_step t st n h1 h2
      obtain ⟨r1, r2⟩ := ih (addPermanentElement t st) (n + 1) g1 g2
      constructor
      · rw [List.foldl_cons, r1, List.length_cons]
        omega
      · rw [List.foldl_cons]
        have : n + 1 + rest.length = n + (rest.length + 1) := by omega
        rw [this] at r2
        exact r2
  obtain ⟨h1, h2⟩ := key ts (initVisualEngine seed palette) 0 rfl
    ⟨[], [], rfl, rfl, by simp, by simp⟩
  rw [hts] at h1 h2
  simp only [Nat.zero_add] at h1 h2
  obtain ⟨A, B, hAB, hAlen, hAfade, hBlive⟩ := h2
  have hk : MAX_PERMANENT_ELEMENTS + k - MAX_PERMANENT_ELEMENTS = k := by omega
  rw [hk] at hAlen
  refine ⟨h1, ?_, ?_⟩
  · intro e he
    rw [hAB, List.take_left' hAlen] at he
    exact hAfade e he
  · intro e he
    rw [hAB, List.drop_left' hAlen] at he
    exact hBlive e he

/-- Witness for C3: 101 additions, so exactly the single oldest element
fades. -/
theorem cap_eviction_correct_witness :
    (List.replicate 101 "shape").length = MAX_PERMANENT_ELEMENTS + 1 ∧
    (((List.replicate 101 "shape").foldl (fun st t => addPermanentElement t st)
        (initVisualEngine 0 ["#FF0000"])).permanentElements.length =
      MAX_PERMANENT_ELEMENTS + 1 ∧
    (∀ e ∈ ((List.replicate 101 "shape").foldl (fun st t => addPermanentElement t st)
        (initVisualEngine 0 ["#FF0000"])).permanentElements.take 1,
      e.fadingOut = true ∧ e.opacity = 1) ∧
    (∀ e ∈ ((List.replicate 101 "shape").foldl (fun st t => addPermanentElement t st)
        (initVisualEngine 0 ["#FF0000"])).permanentElements.drop 1,
      e.fadingOut = false ∧ e.opacity = 1)) := by
  have hlen : (List.replicate 101 "shape").length = MAX_PERMANENT_ELEMENTS + 1 := by
    simp [MAX_PERMANENT_ELEMENTS]
  refine ⟨hlen, ?_, ?_, ?_⟩
  · exact (cap_eviction_correct 0 ["#FF0000"] _ 1 hlen).1
  · exact (cap_eviction_correct 0 ["#FF0000"] _ 1 hlen).2.1
  · exact (cap_eviction_correct 0 ["#FF0000"] _ 1 hlen).2.2

/-! ### Drawing (claims C6, C7) -/

/-- Source `startDrawing(x, y)`: unconditionally draw a fresh style, replace the
current stroke by a new single-point stroke, and set `isDrawing` (the source
has no guard on an already-running stroke; the caller checks `getIsDrawing`
before invoking). -/
def startDrawing (x y : ℚ) (st : VEState) : VEState :=
  let pc := srChoice st.palette "" st.rng
  let pt := srRange 3 12 pc.2
  let pp := srChoice ["solid", "dashed", "dotted", "wavy"] "solid" pt.2
  { st with
    currentDrawStyle := some ⟨pc.1, pt.1, pp.1⟩,
    currentStroke := some ⟨[(x, y)], pc.1, pt.1, pp.1⟩,
    isDrawing := true,
    rng := pp.2 }

/-- Source `continueDrawing(x, y)`: append a point to the stroke in progress; no-op
when idle. -/
def continueDrawing (x y : ℚ) (st : VEState) : VEState :=
  match st.isDrawing, st.currentStroke with
  | true, some cs =>
    { st with currentStroke := some { cs with points := cs.points ++ [(x, y)] } }
  | _, _ => st

/-- Source `endDrawing()`: no-op when idle; otherwise commit the stroke to the
bounded history when it has more than one point (dropping the oldest stroke
past the 50-stroke cap) and return to idle. -/
def endDrawing (st : VEState) : VEState :=
  match st.isDrawing, st.currentStroke with
  | true, some cs =>
    let completed :=
      if 1 < cs.points.length then
        (let l := st.completedStrokes ++ [cs]
         if 50 < l.length then l.tail else l)
      else st.completedStrokes
    { st with completedStrokes := completed, currentStroke := none, isDrawing := false }
  | _, _ => st

/-- A state with a two-point stroke in progress. -/
def exDrawingState : VEState :=
  { rng := 0, width := 2000, height := 2000, palette := ["#FF0000"],
    permanentElements := [], elementIdCounter := 0, isDrawing := true,
    currentStroke := some ⟨[(0, 0), (5, 5)], "#FF0000", 4, "solid"⟩,
    completedStrokes := [], currentDrawStyle := some ⟨"#FF0000", 4, "solid"⟩ }

/-- Counterexample to C6 as stated: with a stroke in progress,
`startDrawing` is not a no-op — it replaces the in-progress stroke. -/
theorem startDrawing_not_noop :
    exDrawingState.isDrawing = true ∧
      startDrawing 7 8 exDrawingState ≠ exDrawingState := by
  refine ⟨rfl, fun h => ?_⟩
  have h2 : (startDrawing 7 8 exDrawingState).currentStroke = exDrawingState.currentStroke := by
    rw [h]
  have h3 := congrArg
    (fun o : Option DrawingStroke =>
      (o.map (fun cs : DrawingStroke => cs.points.length)).getD 0) h2
  have h4 : (1 : ℕ) = 2 := h3
  exact absurd h4 (by decide)

/-- C6 as amended: while a stroke is in progress, `startDrawing(x, y)` leaves
the completed-stroke history unchanged and the state drawing, but discards the
in-progress stroke (it is never committed) and replaces it — together with the
current draw style — by a freshly drawn style and the single-point stroke
`[(x, y)]`.  (The spec's no-op holds only at the session-controller layer,
which guards the call with `getIsDrawing`.) -/
theorem startDrawing_replaces_stroke (st : VEState) (x y : ℚ)
    (h : st.isDrawing = true) :
    (startDrawing x y st).isDrawing = true ∧
    (startDrawing x y st).completedStrokes = st.completedStrokes ∧
    ∃ c th p, (startDrawing x y st).currentDrawStyle = some ⟨c, th, p⟩ ∧
      (startDrawing x y st).currentStroke = some ⟨[(x, y)], c, th, p⟩ :=
  ⟨rfl, rfl, _, _, _, rfl, rfl⟩

/-- Witness for the amended C6 at the concrete in-progress state. -/
theorem startDrawing_replaces_stroke_witness :
    exDrawingState.isDrawing = true ∧
    ((startDrawing 7 8 exDrawingState).isDrawing = true ∧
     (startDrawing 7 8 exDrawingState).completedStrokes = exDrawingState.completedStrokes ∧
     ∃ c th p, (startDrawing 7 8 exDrawingState).currentDrawStyle = some ⟨c, th, p⟩ ∧
       (startDrawing 7 8 exDrawingState).currentStroke = some ⟨[(7, 8)], c, th, p⟩) :=
  ⟨rfl, startDrawing_replaces_stroke exDrawingState 7 8 rfl⟩

/-- C7: `endDrawing` while idle is a no-op on the whole state; with a stroke
in progress it always returns to idle, commits the stroke (as most recent
history entry, evicting the oldest past the 50-stroke cap) exactly when it has
at least two points, and discards a single-point stroke with the history
unchanged. -/
theorem endDrawing_state_machine (st : VEState) :
    (st.isDrawing = false → endDrawing st = st) ∧
    (∀ cs, st.isDrawing = true → st.currentStroke = some cs →
      (endDrawing st).isDrawing = false ∧
      (endDrawing st).currentStroke = none ∧
      (2 ≤ cs.points.length →
        (endDrawing st).completedStrokes =
          (if 50 < (st.completedStrokes ++ [cs]).length then
            (st.completedStrokes ++ [cs]).tail
          else st.completedStrokes ++ [cs]) ∧
        cs ∈ (endDrawing st).completedStrokes) ∧
      (cs.points.length < 2 →
        (endDrawing st).completedStrokes = st.completedStrokes)) := by
  constructor
  · intro h
    unfold endDrawing
    rw [h]
  · intro cs hd hcs
    have hend : endDrawing st =
        { st with
          completedStrokes :=
            (if 1 < cs.points.length then
              (let l := st.completedStrokes ++ [cs]
               if 50 < l.length then l.tail else l)
            else st.completedStrokes),
          currentStroke := none, isDrawing := false } := by
      unfold endDrawing
      rw [hd, hcs]
    refine ⟨by rw [hend], by rw [hend], ?_, ?_⟩
    · intro h2
      have h1 : 1 < cs.points.length := h2
      rw [hend]
      constructor
      · simp only [if_pos h1]
      · simp only [if_pos h1]
        by_cases hc : 50 < (st.completedStrokes ++ [cs]).length
        · rw [if_pos hc]
          cases hsc : st.completedStrokes with
          | nil => rw [hsc] at hc; simp at hc
          | cons s0 rest =>
            simp only [List.cons_append, List.tail_cons]
            exact List.mem_append.mpr (Or.inr (List.mem_singleton.mpr rfl))
        · rw [if_neg hc]
          exact List.mem_append.mpr (Or.inr (List.mem_singleton.mpr rfl))
    · intro h2
      have h1 : ¬ 1 < cs.points.length := by omega
      rw [hend]
      simp only [if_neg h1]

/-- Witness for C7: `endDrawing` on a fresh idle engine is a no-op, and on a
state with a two-point stroke it commits and returns to idle. -/
theorem endDrawing_state_machine_witness :
    ((initVisualEngine 0 ["#FF0000"]).isDrawing = false →
      endDrawing (initVisualEngine 0 ["#FF0000"]) = initVisualEngine 0 ["#FF0000"]) ∧
    ((endDrawing exDrawingState).isDrawing = false ∧
      (endDrawing exDrawingState).currentStroke = none) := by
  refine ⟨(endDrawing_state_machine _).1, ?_⟩
  have h := (endDrawing_state_machine exDrawingState).2
    ⟨[(0, 0), (5, 5)], "#FF0000", 4, "solid"⟩ rfl rfl
  exact ⟨h.1, h.2.1⟩

/-! ### Claim C8: placement search -/

/-- One LCG state update (`next()`'s effect on the register). -/
def lcgStep (s : SRState) : SRState := jsMod (s * 1664525 + 1013904223) M32

theorem fgpLoop_succ (elems : List PermElem) (size margin w h : ℚ) (n : ℕ)
    (s : SRState) :
    fgpLoop elems size margin w h (n + 1) s =
      if (recentWindow elems).any
          (collidesWith (drawCand margin w h s).1.1 (drawCand margin w h s).1.2 size) then
        fgpLoop elems size margin w h n (drawCand margin w h s).2
      else drawCand margin w h s := rfl

/-- The `k`-th candidate position drawn by the attempt loop started at
state `s`. -/
def candSeq (margin w h : ℚ) (s : SRState) (k : ℕ) : ℚ × ℚ :=
  (drawCand margin w h (lcgStep^[2 * k] s)).1

/-- Whether the `k`-th candidate collides with the recent window. -/
def candBad (elems : List PermElem) (size margin w h : ℚ) (s : SRState) (k : ℕ) : Bool :=
  (recentWindow elems).any (fun e =>
    collidesWith (candSeq margin w h s k).1 (candSeq margin w h s k).2 size e)

theorem iterate_two_shift (k : ℕ) (s : SRState) :
    lcgStep^[2 * (k + 1)] s = lcgStep^[2 * k] (lcgStep (lcgStep s)) := by
  rw [show 2 * (k + 1) = 2 * k + 2 by ring, Function.iterate_add_apply]
  rfl

theorem candSeq_shift (margin w h : ℚ) (s : SRState) (k : ℕ) :
    candSeq margin w h (lcgStep (lcgStep s)) k = candSeq margin w h s (k + 1) := by
  unfold candSeq
  rw [iterate_two_shift]

theorem candBad_shift (elems : List PermElem) (size margin w h : ℚ) (s : SRState) (k : ℕ) :
    candBad elems size margin w h (lcgStep (lcgStep s)) k =
      candBad elems size margin w h s (k + 1) := by
  unfold candBad
  rw [candSeq_shift]

theorem fgpLoop_char (elems : List PermElem) (size margin w h : ℚ) :
    ∀ (n : ℕ) (s : SRState),
      fgpLoop elems size margin w h n s =
        (candSeq margin w h s
            (((List.range n).find? (fun k =>
              !(candBad elems size margin w h s k))).getD n),
          lcgStep^[2 * ((((List.range n).find? (fun k =>
              !(candBad elems size margin w h s k))).getD n) + 1)] s) := by
  intro n
  induction n with
  | zero => intro s; rfl
  | succ n ih =>
    intro s
    rw [fgpLoop_succ]
    have hc0 : (recentWindow elems).any
        (collidesWith (drawCand margin w h s).1.1 (drawCand margin w h s).1.2 size) =
        candBad elems size margin w h s 0 := rfl
    rw [hc0]
    by_cases hbad : candBad elems size margin w h s 0 = true
    · rw [if_pos hbad]
      have hrec : (drawCand margin w h s).2 = lcgStep (lcgStep s) := rfl
      rw [hrec, ih (lcgStep (lcgStep s))]
      rw [List.range_succ_eq_map,
        List.find?_cons_of_neg _ (by simp [hbad]), List.find?_map]
      have hfun : ((fun k => !candBad elems size margin w h s k) ∘ Nat.succ) =
          (fun k => !candBad elems size margin w h (lcgStep (lcgStep s)) k) := by
        funext k
        show (!(candBad elems size margin w h s (k + 1))) =
          !(candBad elems size margin w h (lcgStep (lcgStep s)) k)
        rw [candBad_shift]
      rw [hfun]
      cases hfind : (List.range n).find?
          (fun k => !candBad elems size margin w h (lcgStep (lcgStep s)) k) with
      | none =>
        simp only [hfind, Option.map_none', Option.getD_none]
        refine Prod.ext ?_ ?_
        · show candSeq margin w h (lcgStep (lcgStep s)) n = candSeq margin w h s (n + 1)
          exact candSeq_shift margin w h s n
        · show lcgStep^[2 * (n + 1)] (lcgStep (lcgStep s)) = lcgStep^[2 * (n + 1 + 1)] s
          exact (iterate_two_shift (n + 1) s).symm
      | some k =>
        simp only [hfind, Option.map_some', Option.getD_some]
        refine Prod.ext ?_ ?_
        · show candSeq margin w h (lcgStep (lcgStep s)) k = candSeq margin w h s (k + 1)
          exact candSeq_shift margin w h s k
        · show lcgStep^[2 * (k + 1)] (lcgStep (lcgStep s)) = lcgStep^[2 * (k + 1 + 1)] s
          exact (iterate_two_shift (k + 1) s).symm
    · rw [if_neg hbad]
      rw [List.range_succ_eq_map,
        List.find?_cons_of_pos _ (by simp [Bool.not_eq_true] at hbad; simp [hbad])]
      rfl

/-- C8 as amended: `findGoodPosition(size)` draws up to 20 random candidates
within the canvas bounds minus the margin `size + 20` and returns the first
candidate that clears the combined-radius threshold against the recent window
of 15 elements; if none of the 20 qualifies, it draws one additional,
unchecked random candidate (a 21st draw pair) and returns that — not the last
drawn candidate — so it never blocks and always returns a position. -/
theorem findGoodPosition_first_fit (st : VEState) (size : ℚ) :
    findGoodPosition st size =
      (candSeq (size + 20) st.width st.height st.rng
          (((List.range 20).find? (fun k =>
            !(candBad st.permanentElements size (size + 20) st.width st.height st.rng k))).getD 20),
        lcgStep^[2 * ((((List.range 20).find? (fun k =>
            !(candBad st.permanentElements size (size + 20) st.width st.height st.rng k))).getD 20) + 1)] st.rng) :=
  fgpLoop_char st.permanentElements size (size + 20) st.width st.height 20 st.rng

/-- A permanent element whose combined radius covers the whole canvas. -/
def gel : PermElem :=
  { id := 0, etype := "shape", x := 1000, y := 1000, color := "", size := 1000000,
    rotation := 0, baseScale := 1, dataStr := none, opacity := 1, fadingOut := false }

/-- An engine state in which every placement candidate collides. -/
def exC8 : VEState :=
  { rng := 0, width := 2000, height := 2000, palette := ["#FF0000"],
    permanentElements := [gel], elementIdCounter := 1, isDrawing := false,
    currentStroke := none, completedStrokes := [], currentDrawStyle := none }

theorem lcgStep_bounds (s : SRState) (hs : 0 ≤ s) :
    0 ≤ lcgStep s ∧ lcgStep s < M32 := by
  have harg : (0 : ℤ) ≤ s * 1664525 + 1013904223 := by
    have h1 : (0 : ℤ) ≤ s * 1664525 := mul_nonneg hs (by norm_num)
    linarith
  have hM : (0 : ℤ) < M32 := by norm_num [M32]
  constructor
  · unfold lcgStep jsMod
    rw [if_pos harg]
    exact Int.emod_nonneg _ (ne_of_gt hM)
  · unfold lcgStep jsMod
    rw [if_pos harg]
    exact Int.emod_lt_of_pos _ hM

theorem lcgStep_nonneg (s : SRState) (hs : 0 ≤ s) : 0 ≤ lcgStep s :=
  (lcgStep_bounds s hs).1

theorem srNext_nonneg_lt (s : SRState) (hs : 0 ≤ s) :
    0 ≤ (srNext s).1 ∧ (srNext s).1 < 1 := by
  obtain ⟨hnn, hlt⟩ := lcgStep_bounds s hs
  have hM : (0 : ℤ) < M32 := by norm_num [M32]
  constructor
  · show (0 : ℚ) ≤ (lcgStep s : ℚ) / (M32 : ℚ)
    apply div_nonneg
    · exact_mod_cast hnn
    · exact_mod_cast le_of_lt hM
  · show (lcgStep s : ℚ) / (M32 : ℚ) < 1
    rw [div_lt_one (by exact_mod_cast hM)]
    exact_mod_cast hlt

theorem srRange_out_mem (a b : ℚ) (hab : a < b) (s : SRState) (hs : 0 ≤ s) :
    a ≤ (srRange a b s).1 ∧ (srRange a b s).1 ≤ b := by
  obtain ⟨h0, h1⟩ := srNext_nonneg_lt s hs
  constructor
  · show a ≤ a + (srNext s).1 * (b - a)
    nlinarith
  · show a + (srNext s).1 * (b - a) ≤ b
    nlinarith

theorem collide_gel (x y : ℚ) (hx0 : 70 ≤ x) (hx1 : x ≤ 1930)
    (hy0 : 70 ≤ y) (hy1 : y ≤ 1930) : collidesWith x y 50 gel = true := by
  have hsize : gel.size = 1000000 := rfl
  have hgx : gel.x = 1000 := rfl
  have hgy : gel.y = 1000 := rfl
  simp only [collidesWith, hsize, hgx, hgy, Bool.and_eq_true, decide_eq_true_eq]
  constructor
  · norm_num
  · have hx2 : (x - 1000) ^ 2 ≤ 930 ^ 2 := by nlinarith
    have hy2 : (y - 1000) ^ 2 ≤ 930 ^ 2 := by nlinarith
    calc (x - 1000) ^ 2 + (y - 1000) ^ 2
        ≤ 930 ^ 2 + 930 ^ 2 := add_le_add hx2 hy2
      _ < ((50 + 1000000) / 2 + 40) ^ 2 := by norm_num

theorem gel_cand_collides (s : SRState) (hs : 0 ≤ s) :
    (recentWindow [gel]).any
      (collidesWith (drawCand 70 2000 2000 s).1.1 (drawCand 70 2000 2000 s).1.2 50) = true := by
  have hx : 70 ≤ (srRange 70 (2000 - 70) s).1 ∧ (srRange 70 (2000 - 70) s).1 ≤ 2000 - 70 :=
    srRange_out_mem 70 (2000 - 70) (by norm_num) s hs
  have hys : (0 : ℤ) ≤ (srRange 70 (2000 - 70) s).2 := lcgStep_nonneg s hs
  have hy : 70 ≤ (srRange 70 (2000 - 70) (srRange 70 (2000 - 70) s).2).1 ∧
      (srRange 70 (2000 - 70) (srRange 70 (2000 - 70) s).2).1 ≤ 2000 - 70 :=
    srRange_out_mem 70 (2000 - 70) (by norm_num) _ hys
  have e1 : (drawCand 70 2000 2000 s).1.1 = (srRange 70 (2000 - 70) s).1 := rfl
  have e2 : (drawCand 70 2000 2000 s).1.2 =
      (srRange 70 (2000 - 70) (srRange 70 (2000 - 70) s).2).1 := rfl
  show (List.any [gel] _) = true
  simp only [List.any_cons, List.any_nil, Bool.or_false]
  exact collide_gel _ _ (by rw [e1]; exact hx.1) (by rw [e1]; linarith [hx.2])
    (by rw [e2]; exact hy.1) (by rw [e2]; linarith [hy.2])

theorem fgp_step_gel (n : ℕ) (s : SRState) (hs : 0 ≤ s) :
    fgpLoop [gel] 50 70 2000 2000 (n + 1) s =
      fgpLoop [gel] 50 70 2000 2000 n (lcgStep (lcgStep s)) := by
  rw [fgpLoop_succ, if_pos (gel_cand_collides s hs)]
  rfl

theorem fgp_all_gel (n : ℕ) : ∀ (s : SRState), 0 ≤ s →
    fgpLoop [gel] 50 70 2000 2000 n s = drawCand 70 2000 2000 (lcgStep^[2 * n] s) := by
  induction n with
  | zero => intro s _; rfl
  | succ n ih =>
    intro s hs
    rw [fgp_step_gel n s hs,
      ih _ (lcgStep_nonneg _ (lcgStep_nonneg s hs)), ← iterate_two_shift]

theorem fgpLoopSpec_succ (elems : List PermElem) (size margin w h : ℚ) (n : ℕ)
    (s : SRState) :
    fgpLoopSpec elems size margin w h (n + 1) s =
      if n = 0 then drawCand margin w h s
      else if (recentWindow elems).any
          (collidesWith (drawCand margin w h s).1.1 (drawCand margin w h s).1.2 size) then
        fgpLoopSpec elems size margin w h n (drawCand margin w h s).2
      else drawCand margin w h s := rfl

theorem fgpSpec_all_gel (n : ℕ) : ∀ (s : SRState), 0 ≤ s →
    fgpLoopSpec [gel] 50 70 2000 2000 (n + 1) s =
      drawCand 70 2000 2000 (lcgStep^[2 * n] s) := by
  induction n with
  | zero => intro s _; rw [fgpLoopSpec_succ, if_pos rfl]; rfl
  | succ n ih =>
    intro s hs
    rw [fgpLoopSpec_succ, if_neg (Nat.succ_ne_zero n),
      if_pos (gel_cand_collides s hs)]
    have hrec : (drawCand 70 2000 2000 s).2 = lcgStep (lcgStep s) := rfl
    rw [hrec, ih _ (lcgStep_nonneg _ (lcgStep_nonneg s hs)), ← iterate_two_shift]

theorem drawCand_fst (margin w h : ℚ) (t : SRState) :
    (drawCand margin w h t).1.1 =
      margin + (lcgStep t : ℚ) / (M32 : ℚ) * (w - margin - margin) := rfl

set_option maxRecDepth 4000 in
/-- Counterexample to C8 as stated: in a state where all 20 candidates
collide, `findGoodPosition` does not return the last drawn candidate — it
draws and returns a fresh 21st candidate, diverging from the spec-worded
placement (`findGoodPositionSpec`). -/
theorem findGoodPosition_fallback_diverges :
    findGoodPosition exC8 50 ≠ findGoodPositionSpec exC8 50 := by
  have hm : (50 : ℚ) + 20 = 70 := by norm_num
  have hcode : findGoodPosition exC8 50 = drawCand 70 2000 2000 (lcgStep^[2 * 20] 0) := by
    show fgpLoop [gel] 50 (50 + 20) 2000 2000 20 0 =
      drawCand 70 2000 2000 (lcgStep^[2 * 20] 0)
    rw [hm]
    exact fgp_all_gel 20 0 le_rfl
  have hspec : findGoodPositionSpec exC8 50 = drawCand 70 2000 2000 (lcgStep^[2 * 19] 0) := by
    show fgpLoopSpec [gel] 50 (50 + 20) 2000 2000 20 0 =
      drawCand 70 2000 2000 (lcgStep^[2 * 19] 0)
    rw [hm]
    exact fgpSpec_all_gel 19 0 le_rfl
  intro heq
  rw [hcode, hspec] at heq
  have hx := congrArg (fun p : (ℚ × ℚ) × SRState => p.1.1) heq
  simp only [drawCand_fst] at hx
  have hC : (2000 - 70 - 70 : ℚ) ≠ 0 := by norm_num
  have hM0 : ((M32 : ℤ) : ℚ) ≠ 0 := by norm_num [M32]
  have h1 : ((lcgStep (lcgStep^[2 * 20] 0) : ℤ) : ℚ) / (M32 : ℚ) * (2000 - 70 - 70) =
      ((lcgStep (lcgStep^[2 * 19] 0) : ℤ) : ℚ) / (M32 : ℚ) * (2000 - 70 - 70) := by
    linarith
  have h2 := mul_right_cancel₀ hC h1
  have hcast : ((lcgStep (lcgStep^[2 * 20] 0) : ℤ) : ℚ) =
      ((lcgStep (lcgStep^[2 * 19] 0) : ℤ) : ℚ) :=
    (div_left_inj' hM0).mp h2
  have heqz : lcgStep (lcgStep^[2 * 20] (0 : ℤ)) = lcgStep (lcgStep^[2 * 19] (0 : ℤ)) := by
    exact_mod_cast hcast
  have hne : lcgStep (lcgStep^[2 * 20] (0 : ℤ)) ≠ lcgStep (lcgStep^[2 * 19] (0 : ℤ)) := by
    decide
  exact hne heqz
